import Mathlib

/-!
Shallow embedding of the AWC blog backend (the express server in
server.js together with its earlier in-memory variant, which defines the
same blog-comment handler). Wall-clock times are modelled by an abstract
day index plus a clock: the day index counts days from a fixed Sunday, so
the JS getDay() weekday is the day index modulo 7 (0 = Sunday) and the
setDate arithmetic of the status handler becomes addition on the day
index. Handlers are pure functions from request data and store state to
an HTTP status, a response payload and the new store state.
-/

/-- A local date-time at the granularity the server inspects: absolute
day index (day % 7 is the JS getDay weekday, 0 = Sunday), hour, minute,
second and millisecond. -/
@[ext]
structure SimpleDate where
  day : Nat
  hour : Nat
  minute : Nat
  second : Nat
  ms : Nat
deriving DecidableEq, Repr

/-- server.js, isTestimonialSubmissionOpen: the submission-window gate as
a function of the JS weekday (0 = Sunday) and the local hour. The body is
the three-clause OR of the source. -/
def isTestimonialSubmissionOpen (dayOfWeek hour : Nat) : Bool :=
  (decide (2 ≤ dayOfWeek) && decide (dayOfWeek ≤ 5)) ||
  (decide (dayOfWeek = 2) && decide (12 ≤ hour)) ||
  (decide (dayOfWeek = 5) && decide (hour ≤ 23))

/-- Modelled from the spec: the documented-intent policy, open from
Tuesday 12:00 through Friday 23:59 local time and closed otherwise (the
window the source comment and the 403 message describe). -/
def documentedIntentOpen (dayOfWeek hour : Nat) : Bool :=
  (decide (dayOfWeek = 2) && decide (12 ≤ hour)) ||
  (decide (3 ≤ dayOfWeek) && decide (dayOfWeek ≤ 4)) ||
  (decide (dayOfWeek = 5) && decide (hour ≤ 23))

/-- server.js, GET /api/testimonials/status: the next-submission-window
calculation. Starts from the current time; on Sunday, Monday or Tuesday
before noon moves to the Tuesday of that same week and sets 12:00:00.000;
otherwise, when the gate is closed, moves to the Tuesday of the next week
at 12:00:00.000;
otherwise leaves the current time unchanged. -/
def nextSubmissionWindow (now : SimpleDate) : SimpleDate :=
  if now.day % 7 = 0 ∨ now.day % 7 = 1 ∨ (now.day % 7 = 2 ∧ now.hour < 12) then
    { day := now.day + (2 + 7 - now.day % 7) % 7, hour := 12, minute := 0, second := 0, ms := 0 }
  else if isTestimonialSubmissionOpen (now.day % 7) now.hour = false then
    { day := now.day + (7 - now.day % 7 + 2), hour := 12, minute := 0, second := 0, ms := 0 }
  else
    now

/-- Tuesday 12:00:00.000 of the same (Sunday-started) week as t. -/
def sameWeekTuesdayNoon (t : SimpleDate) : SimpleDate :=
  { day := t.day - t.day % 7 + 2, hour := 12, minute := 0, second := 0, ms := 0 }

/-- Tuesday 12:00:00.000 of the week after the week of t. -/
def followingWeekTuesdayNoon (t : SimpleDate) : SimpleDate :=
  { day := t.day - t.day % 7 + 7 + 2, hour := 12, minute := 0, second := 0, ms := 0 }

/-- JS String.prototype.trim, modelled on the character list: drops
leading and trailing whitespace. -/
def jsTrim (s : String) : String :=
  ⟨((s.data.dropWhile Char.isWhitespace).reverse.dropWhile Char.isWhitespace).reverse⟩

/-- The test !field || field.trim() written by the source on
required text fields: true when the field is absent (undefined), the
empty string (falsy), or whitespace-only. -/
def blankStr : Option String → Bool
  | none => true
  | some s => (s == "") || (jsTrim s == "")

/-- The JS expression x || the Anonymous sentinel, on an optional
name: an absent or empty name falls back to the sentinel. -/
def orAnonymous : Option String → String
  | none => "Anonymous"
  | some s => if s == "" then "Anonymous" else s

/-- A blog comment as stored by POST /api/comments/:postId (identical in
server.js and the earlier variant): id is Date.now(), author_email is
read from the body but never stored, created_at is the literal string
the code writes. -/
structure BlogComment where
  id : Nat
  author_name : Option String
  content : Option String
  created_at : String
deriving DecidableEq, Repr

/-- The JSON body of a blog-comment request; absent fields are none. -/
structure BlogBody where
  author_name : Option String
  author_email : Option String
  content : Option String
deriving DecidableEq, Repr

/-- Blog-comment storage: the comments object keyed by post id; a post
with no entry reads as the empty list. -/
def BlogStore : Type := String → List BlogComment

/-- server.js, POST /api/comments/:postId: builds the comment, prepends
it (unshift) to the addressed posts list, and responds with the comment
via res.json, whose default HTTP status is 200. No field is validated. -/
def postBlogComment (postId : String) (body : BlogBody) (now : Nat)
    (store : BlogStore) : Nat × BlogComment × BlogStore :=
  let newComment : BlogComment :=
    { id := now, author_name := body.author_name, content := body.content,
      created_at := "Just now" }
  (200, newComment, fun k => if k = postId then newComment :: store k else store k)

/-- server.js, GET /api/comments/:postId: the comments of the post. -/
def getBlogComments (postId : String) (store : BlogStore) : List BlogComment :=
  store postId

/-- A prayer-wall entry. Ids are the numeric values behind the string
ids String(nextPrayerId++) of the source; only equality on them is ever
used. date and created_at are the two timestamp fields the code writes. -/
structure Prayer where
  id : Nat
  name : String
  request : String
  hearts : Nat
  date : Nat
  created_at : Nat
  anonymous : Bool
deriving DecidableEq, Repr

/-- A nested prayer comment of /api/prayers/:id/comments. -/
structure PrayerComment where
  id : Nat
  author_name : String
  content : String
  created_at : Nat
  anonymous : Bool
  prayer_id : Nat
deriving DecidableEq, Repr

/-- The prayer-wall state: the prayers array, the prayerComments object
keyed by prayer id (an absent key reads as the empty list), and the two
id counters. -/
structure PrayerStore where
  prayers : List Prayer
  prayerComments : Nat → List PrayerComment
  nextPrayerId : Nat
  nextCommentId : Nat

/-- The JSON body of POST /api/prayers; absent fields are none. -/
structure PrayerBody where
  request : Option String
  name : Option String
  anonymous : Bool
deriving DecidableEq, Repr

/-- server.js, POST /api/prayers: rejects a blank request text with 400
leaving the store alone, otherwise appends a new prayer with hearts 0
and answers 201 with it. -/
def createPrayer (body : PrayerBody) (now : Nat) (s : PrayerStore) :
    (Nat × Option Prayer) × PrayerStore :=
  if blankStr body.request then ((400, none), s)
  else
    let p : Prayer :=
      { id := s.nextPrayerId,
        name := if body.anonymous then "Anonymous" else orAnonymous body.name,
        request := jsTrim (body.request.getD ""),
        hearts := 0, date := now, created_at := now,
        anonymous := body.anonymous }
    ((201, some p),
     { s with prayers := s.prayers ++ [p], nextPrayerId := s.nextPrayerId + 1 })

/-- prayers.find(p => p.id === id) followed by the in-place
prayer.hearts++: increments the first prayer carrying the id, none when
no id matches. -/
def heartFirst (id : Nat) : List Prayer → Option (List Prayer)
  | [] => none
  | p :: ps =>
    if p.id = id then some ({ p with hearts := p.hearts + 1 } :: ps)
    else (heartFirst id ps).map (p :: ·)

/-- server.js, POST /api/prayers/:id/heart: 404 when the id is unknown,
otherwise increments that prayers heart count and answers 200. -/
def heartPrayer (id : Nat) (s : PrayerStore) : Nat × PrayerStore :=
  match heartFirst id s.prayers with
  | none => (404, s)
  | some ps => (200, { s with prayers := ps })

/-- prayers.splice(index, 1) after findIndex: removes the first prayer
carrying the id, none when no id matches. -/
def removeFirstPrayer (id : Nat) : List Prayer → Option (List Prayer)
  | [] => none
  | p :: ps =>
    if p.id = id then some ps
    else (removeFirstPrayer id ps).map (p :: ·)

/-- server.js, DELETE /api/prayers/:id: 404 when the id is unknown;
otherwise removes the prayer and deletes the prayerComments entry for
that id (the cascade delete of its nested comments). -/
def deletePrayer (id : Nat) (s : PrayerStore) : Nat × PrayerStore :=
  match removeFirstPrayer id s.prayers with
  | none => (404, s)
  | some ps =>
    (200, { s with prayers := ps,
                   prayerComments := fun k => if k = id then [] else s.prayerComments k })

/-- server.js, POST /api/prayers/:id/comments: 400 on blank content, 404
when the parent prayer is missing, otherwise appends the comment under
the parents key with prayer_id set to that same key. -/
def createPrayerComment (prayerId : Nat) (content authorName : Option String)
    (anonymous : Bool) (now : Nat) (s : PrayerStore) : Nat × PrayerStore :=
  if blankStr content then (400, s)
  else if (s.prayers.find? (fun p => p.id == prayerId)).isNone then (404, s)
  else
    let c : PrayerComment :=
      { id := s.nextCommentId,
        author_name := if anonymous then "Anonymous" else orAnonymous authorName,
        content := jsTrim (content.getD ""), created_at := now,
        anonymous := anonymous, prayer_id := prayerId }
    (201, { s with
              prayerComments := fun k =>
                if k = prayerId then s.prayerComments k ++ [c] else s.prayerComments k,
              nextCommentId := s.nextCommentId + 1 })

/-- One step of a stable descending insertion: x moves past every
element whose key is at least its own, so the relative order of equal
keys is preserved. -/
def insertByKeyDesc {α : Type} (key : α → Nat) (x : α) : List α → List α
  | [] => [x]
  | y :: ys => if key x ≤ key y then y :: insertByKeyDesc key x ys else x :: y :: ys

/-- The sort((a, b) => new Date(b.created_at) - new Date(a.created_at))
of the source. The engines sort is stable (ES2019), and a stable sort is
uniquely determined by its comparator, so this stable insertion sort is
an exact model of it. -/
def sortByKeyDesc {α : Type} (key : α → Nat) (l : List α) : List α :=
  l.foldl (fun acc x => insertByKeyDesc key x acc) []

/-- server.js, GET /api/prayers: the prayers in descending created_at
order. -/
def listPrayers (s : PrayerStore) : List Prayer :=
  sortByKeyDesc (fun p => p.created_at) s.prayers

/-- server.js, GET /api/prayers/:id/comments: that prayers nested
comments in descending created_at order. -/
def listPrayerComments (id : Nat) (s : PrayerStore) : List PrayerComment :=
  sortByKeyDesc (fun c => c.created_at) (s.prayerComments id)

/-- A prayer store with no prayers and no comments, before the first
client write (counters as after the two seeds were removed would not
matter; only relative order is at stake in the claims that use it). -/
def emptyPrayerStore : PrayerStore :=
  { prayers := [], prayerComments := fun _ => [], nextPrayerId := 3, nextCommentId := 1 }

/-- A testimonial: pending on creation (approved false, approved_at
null), approvable once. -/
structure Testimonial where
  id : Nat
  name : String
  testimony : String
  anonymous : Bool
  approved : Bool
  created_at : Nat
  approved_at : Option Nat
deriving DecidableEq, Repr

/-- The testimonial state: the testimonials array and the id counter. -/
structure TestimonialStore where
  testimonials : List Testimonial
  nextTestimonialId : Nat
deriving DecidableEq, Repr

/-- The JSON body of POST /api/testimonials; absent fields are none. -/
structure TestimonialBody where
  testimony : Option String
  name : Option String
  anonymous : Bool
deriving DecidableEq, Repr

/-- The response of a testimonial endpoint: HTTP status, error message
of the failure envelope, and the testimonial carried on success. -/
structure TestimonialRes where
  status : Nat
  error : Option String
  testimonial : Option Testimonial
deriving DecidableEq, Repr

/-- server.js, POST /api/testimonials: 403 outside the gate; 400 on a
blank testimony, then on length over 2000, then on a missing or blank
name of a non-anonymous submission; otherwise appends a pending
testimonial (approved false, approved_at null) and answers 201 with
it. Every failure leaves the store untouched. -/
def postTestimonial (t : SimpleDate) (ts : Nat) (body : TestimonialBody)
    (s : TestimonialStore) : TestimonialRes × TestimonialStore :=
  if isTestimonialSubmissionOpen (t.day % 7) t.hour = false then
    ({ status := 403, error := some "Testimonial submission is currently closed",
       testimonial := none }, s)
  else if blankStr body.testimony then
    ({ status := 400, error := some "Testimony content required",
       testimonial := none }, s)
  else if 2000 < (body.testimony.getD "").length then
    ({ status := 400, error := some "Testimony must be less than 2000 characters",
       testimonial := none }, s)
  else if body.anonymous = false ∧ blankStr body.name then
    ({ status := 400, error := some "Name required when not submitting anonymously",
       testimonial := none }, s)
  else
    let newT : Testimonial :=
      { id := s.nextTestimonialId,
        name := if body.anonymous then "Anonymous" else jsTrim (body.name.getD ""),
        testimony := jsTrim (body.testimony.getD ""),
        anonymous := body.anonymous,
        approved := false,
        created_at := ts,
        approved_at := none }
    ({ status := 201, error := none, testimonial := some newT },
     { testimonials := s.testimonials ++ [newT],
       nextTestimonialId := s.nextTestimonialId + 1 })

/-- Why an approval attempt was refused. -/
inductive ApproveOutcome where
  | notFound
  | alreadyApproved
deriving DecidableEq, Repr

/-- testimonials.find(t => t.id === id) followed by the in-place
approval writes: updates the first testimonial carrying the id, or
reports why it could not. -/
def approveFirst (id ts : Nat) : List Testimonial → Except ApproveOutcome (List Testimonial)
  | [] => .error .notFound
  | t :: rest =>
    if t.id = id then
      if t.approved then .error .alreadyApproved
      else .ok ({ t with approved := true, approved_at := some ts } :: rest)
    else
      match approveFirst id ts rest with
      | .ok rest2 => .ok (t :: rest2)
      | .error e => .error e

/-- server.js, POST /api/testimonials/:id/approve: 404 on an unknown id,
400 when already approved (store untouched in both cases), otherwise
sets approved and approved_at on that testimonial and answers 200. -/
def approveTestimonial (id ts : Nat) (s : TestimonialStore) :
    TestimonialRes × TestimonialStore :=
  match approveFirst id ts s.testimonials with
  | .error .notFound =>
    ({ status := 404, error := some "Testimonial not found", testimonial := none }, s)
  | .error .alreadyApproved =>
    ({ status := 400, error := some "Testimonial already approved", testimonial := none }, s)
  | .ok l =>
    ({ status := 200, error := none, testimonial := l.find? (fun u => u.id == id) },
     { s with testimonials := l })

/-- testimonials.splice(index, 1) after findIndex: drops the first
testimonial carrying the id, none when no id matches. -/
def removeFirstTestimonial (id : Nat) : List Testimonial → Option (List Testimonial)
  | [] => none
  | t :: rest =>
    if t.id = id then some rest
    else (removeFirstTestimonial id rest).map (t :: ·)

/-- server.js, DELETE /api/testimonials/:id: 404 on an unknown id,
otherwise removes the testimonial. -/
def deleteTestimonial (id : Nat) (s : TestimonialStore) :
    TestimonialRes × TestimonialStore :=
  match removeFirstTestimonial id s.testimonials with
  | none =>
    ({ status := 404, error := some "Testimonial not found", testimonial := none }, s)
  | some l =>
    ({ status := 200, error := none, testimonial := none }, { s with testimonials := l })

/-- First seeded testimonial of server.js (text abbreviated, timestamps
abstracted: created and approved at load time). -/
def seedTestimonial1 : Testimonial :=
  { id := 1, name := "Sarah M.", testimony := "God answered my prayer",
    anonymous := false, approved := true, created_at := 86400000,
    approved_at := some 86400000 }

/-- Second seeded testimonial of server.js (created one day before load,
approved half a day before load). -/
def seedTestimonial2 : Testimonial :=
  { id := 2, name := "Anonymous", testimony := "Strength to overcome",
    anonymous := true, approved := true, created_at := 0,
    approved_at := some 43200000 }

/-- The seeded store of server.js: the two approved testimonials, next
id 3. -/
def initialTestimonialStore : TestimonialStore :=
  { testimonials := [seedTestimonial1, seedTestimonial2], nextTestimonialId := 3 }

/-- The operations that touch the testimonial store. -/
inductive TestimonialAction where
  | create (t : SimpleDate) (ts : Nat) (body : TestimonialBody)
  | approve (id ts : Nat)
  | remove (id : Nat)
deriving DecidableEq, Repr

/-- Dispatch of a testimonial operation to its handler. -/
def applyTestimonialAction : TestimonialAction → TestimonialStore →
    TestimonialRes × TestimonialStore
  | .create t ts body, s => postTestimonial t ts body s
  | .approve id ts, s => approveTestimonial id ts s
  | .remove id, s => deleteTestimonial id s

/-- The testimonial stores reachable from the seeded store under the
three operations. -/
inductive TestimonialReachable : TestimonialStore → Prop where
  | init : TestimonialReachable initialTestimonialStore
  | step (a : TestimonialAction) {s : TestimonialStore} :
      TestimonialReachable s → TestimonialReachable (applyTestimonialAction a s).2

/-- Store well-formedness: approval timestamp present exactly on
approved entries, ids pairwise distinct, ids below the counter. -/
def TestimonialInv (s : TestimonialStore) : Prop :=
  (∀ t ∈ s.testimonials, t.approved_at.isSome = t.approved) ∧
  (s.testimonials.map Testimonial.id).Nodup ∧
  (∀ t ∈ s.testimonials, t.id < s.nextTestimonialId)

/-- C1: at Tuesday 00:00 the documented-intent policy (open Tuesday 12:00
through Friday 23:59) says closed, but the gate in the code returns open:
the boolean expression contradicts the window documented next to it. -/
theorem gate_open_tuesday_midnight :
    isTestimonialSubmissionOpen 2 0 = true ∧ documentedIntentOpen 2 0 = false := by
  decide

/-- C2: the three-clause gate expression is equal to the plain weekday
range test 2 ≤ weekday ≤ 5; the two hour-bound clauses never change the
result. -/
theorem gate_eq_weekday_range (d h : Nat) :
    isTestimonialSubmissionOpen d h = (decide (2 ≤ d) && decide (d ≤ 5)) := by
  have hiff : isTestimonialSubmissionOpen d h = true ↔
      ((decide (2 ≤ d) && decide (d ≤ 5)) = true) := by
    simp [isTestimonialSubmissionOpen]
    omega
  cases hb : isTestimonialSubmissionOpen d h
  · cases hc : (decide (2 ≤ d) && decide (d ≤ 5))
    · rfl
    · exact absurd (hiff.mpr hc) (by simp [hb])
  · exact (hiff.mp hb).symm

/-- C3: on Sunday, Monday, or Tuesday before 12:00 the status handler
returns the Tuesday of that same week at 12:00:00; on Saturday, or at any
other closed time after the window, it returns the Tuesday of the
following week at 12:00:00. -/
theorem status_next_window (t : SimpleDate) :
    ((t.day % 7 = 0 ∨ t.day % 7 = 1 ∨ (t.day % 7 = 2 ∧ t.hour < 12)) →
      nextSubmissionWindow t = sameWeekTuesdayNoon t) ∧
    ((t.day % 7 = 6 ∨
        (isTestimonialSubmissionOpen (t.day % 7) t.hour = false ∧
          ¬ (t.day % 7 = 0 ∨ t.day % 7 = 1 ∨ (t.day % 7 = 2 ∧ t.hour < 12)))) →
      nextSubmissionWindow t = followingWeekTuesdayNoon t) := by
  constructor
  · intro h
    have hle : t.day % 7 ≤ t.day := Nat.mod_le _ _
    unfold nextSubmissionWindow sameWeekTuesdayNoon
    rw [if_pos h]
    ext <;> simp <;> omega
  · intro h
    have hle : t.day % 7 ≤ t.day := Nat.mod_le _ _
    have hdow : t.day % 7 = 6 ∧ ¬ (t.day % 7 = 0 ∨ t.day % 7 = 1 ∨
        (t.day % 7 = 2 ∧ t.hour < 12)) := by
      rcases h with h6 | ⟨hclosed, hnot⟩
      · exact ⟨h6, by omega⟩
      · refine ⟨?_, hnot⟩
        have := gate_eq_weekday_range (t.day % 7) t.hour
        rw [hclosed] at this
        have hrange : ¬ (2 ≤ t.day % 7 ∧ t.day % 7 ≤ 5) := by
          intro ⟨h2, h5⟩
          simp [h2, h5] at this
        have hlt : t.day % 7 < 7 := Nat.mod_lt _ (by omega)
        omega
    unfold nextSubmissionWindow followingWeekTuesdayNoon
    rw [if_neg hdow.2, if_pos]
    · ext <;> simp <;> omega
    · rw [hdow.1]
      simp [isTestimonialSubmissionOpen]

/-- Witness for C3 at Sunday 05:00 (day 0) and Saturday 05:00 (day 6). -/
theorem status_next_window_witness :
    nextSubmissionWindow ⟨0, 5, 0, 0, 0⟩ = sameWeekTuesdayNoon ⟨0, 5, 0, 0, 0⟩ ∧
    nextSubmissionWindow ⟨6, 5, 0, 0, 0⟩ = followingWeekTuesdayNoon ⟨6, 5, 0, 0, 0⟩ :=
  ⟨(status_next_window ⟨0, 5, 0, 0, 0⟩).1 (by decide),
   (status_next_window ⟨6, 5, 0, 0, 0⟩).2 (by decide)⟩

/-- C10 counterexample: day 2 is a Tuesday; at 08:30 the gate is open,
yet the status handler does not return the current time (it returns that
12:00:00 of that same day instead). -/
theorem open_tuesday_morning_not_current_time :
    isTestimonialSubmissionOpen ((⟨2, 8, 30, 0, 0⟩ : SimpleDate).day % 7)
        (⟨2, 8, 30, 0, 0⟩ : SimpleDate).hour = true ∧
    nextSubmissionWindow ⟨2, 8, 30, 0, 0⟩ ≠ ⟨2, 8, 30, 0, 0⟩ := by
  decide

/-- C10 amended: at every open time that is not Tuesday before 12:00 the
status handler returns the current time unmodified; at an open Tuesday
before 12:00 it returns that same day at 12:00:00 instead. -/
theorem open_next_window (t : SimpleDate)
    (hopen : isTestimonialSubmissionOpen (t.day % 7) t.hour = true) :
    (¬ (t.day % 7 = 2 ∧ t.hour < 12) → nextSubmissionWindow t = t) ∧
    ((t.day % 7 = 2 ∧ t.hour < 12) →
      nextSubmissionWindow t = { day := t.day, hour := 12, minute := 0, second := 0, ms := 0 }) := by
  have hrange : 2 ≤ t.day % 7 ∧ t.day % 7 ≤ 5 := by
    have := gate_eq_weekday_range (t.day % 7) t.hour
    rw [hopen] at this
    have := this.symm
    simp only [Bool.and_eq_true, decide_eq_true_eq] at this
    exact this
  constructor
  · intro hnot
    unfold nextSubmissionWindow
    rw [if_neg (by omega), if_neg (by simp [hopen])]
  · intro h2
    unfold nextSubmissionWindow
    rw [if_pos (by omega)]
    ext <;> simp <;> omega

/-- Witness for C10 amended at Wednesday (day 3) midnight. -/
theorem open_next_window_witness :
    nextSubmissionWindow ⟨3, 0, 0, 0, 0⟩ = ⟨3, 0, 0, 0, 0⟩ :=
  (open_next_window ⟨3, 0, 0, 0, 0⟩ (by decide)).1 (by decide)

/-- C9 counterexample: a blog-comment request with every field missing is
not rejected with 400; the handler answers 200 (not 201) and stores a
comment anyway. -/
theorem blog_comment_missing_fields_not_rejected :
    (postBlogComment "1" ⟨none, none, none⟩ 0 (fun _ => [])).1 = 200 ∧
    (postBlogComment "1" ⟨none, none, none⟩ 0 (fun _ => [])).1 ≠ 201 ∧
    (postBlogComment "1" ⟨none, none, none⟩ 0 (fun _ => [])).1 ≠ 400 ∧
    (postBlogComment "1" ⟨none, none, none⟩ 0 (fun _ => [])).2.2 "1" =
      [{ id := 0, author_name := none, content := none, created_at := "Just now" }] := by
  refine ⟨rfl, by decide, by decide, by simp [postBlogComment]⟩

/-- C9 amended: POST /api/comments/:postId performs no validation: every
request, even one with missing fields, is answered with HTTP 200 (the
res.json default, not 201) and the created comment, which is prepended
to the addressed posts list; every other posts list is unchanged, and no
400 is ever produced. -/
theorem blog_comment_post_behavior (postId : String) (body : BlogBody)
    (now : Nat) (store : BlogStore) :
    (postBlogComment postId body now store).1 = 200 ∧
    (postBlogComment postId body now store).2.1 =
      { id := now, author_name := body.author_name, content := body.content,
        created_at := "Just now" } ∧
    (postBlogComment postId body now store).2.2 postId =
      (postBlogComment postId body now store).2.1 :: store postId ∧
    (∀ k, k ≠ postId → (postBlogComment postId body now store).2.2 k = store k) := by
  refine ⟨rfl, rfl, by simp [postBlogComment], ?_⟩
  intro k hk
  simp [postBlogComment, hk]

/-- Witness for C9 amended at a concrete request and store. -/
theorem blog_comment_post_behavior_witness :
    (postBlogComment "1" ⟨some "A", none, some "hi"⟩ 5 (fun _ => [])).1 = 200 ∧
    (postBlogComment "1" ⟨some "A", none, some "hi"⟩ 5 (fun _ => [])).2.2 "2" = [] :=
  ⟨(blog_comment_post_behavior "1" ⟨some "A", none, some "hi"⟩ 5 (fun _ => [])).1,
   (blog_comment_post_behavior "1" ⟨some "A", none, some "hi"⟩ 5
      (fun _ => [])).2.2.2 "2" (by decide)⟩

/-- heartFirst finds nothing when no prayer carries the id. -/
theorem heartFirst_eq_none {id : Nat} {l : List Prayer}
    (h : ∀ p ∈ l, p.id ≠ id) : heartFirst id l = none := by
  induction l with
  | nil => rfl
  | cons q ls ih =>
    simp only [heartFirst]
    rw [if_neg (h q (List.mem_cons_self q ls))]
    rw [ih fun p hp => h p (List.mem_cons_of_mem q hp)]
    rfl

/-- heartFirst at a present id (ids unique): the store splits around the
carrier, and exactly its heart count is incremented. -/
theorem heartFirst_eq_some {id : Nat} {l : List Prayer} {p : Prayer}
    (hmem : p ∈ l) (hid : p.id = id) (hnd : (l.map Prayer.id).Nodup) :
    ∃ l₁ l₂, l = l₁ ++ p :: l₂ ∧
      heartFirst id l = some (l₁ ++ { p with hearts := p.hearts + 1 } :: l₂) := by
  induction l with
  | nil => cases hmem
  | cons q ls ih =>
    rw [List.map_cons, List.nodup_cons] at hnd
    by_cases hq : q.id = id
    · have hpq : p = q := by
        rcases List.mem_cons.mp hmem with h | h
        · exact h
        · exfalso
          apply hnd.1
          rw [hq, ← hid]
          exact List.mem_map_of_mem Prayer.id h
      subst hpq
      exact ⟨[], ls, by simp, by simp [heartFirst, hid]⟩
    · have hpls : p ∈ ls := by
        rcases List.mem_cons.mp hmem with h | h
        · exact absurd (h ▸ hid) hq
        · exact h
      obtain ⟨l₁, l₂, hl, hh⟩ := ih hpls hnd.2
      exact ⟨q :: l₁, l₂, by simp [hl], by simp [heartFirst, hq, hh]⟩

/-- C6: hearting an unknown prayer id answers 404 and leaves the store
unchanged; hearting a present id (ids being pairwise distinct)
increments exactly that prayers heart count by 1 and changes nothing
else: not the surrounding prayers, not its other fields, not the
comments, not the counters. -/
theorem heart_prayer_spec (id : Nat) (s : PrayerStore) :
    ((∀ p ∈ s.prayers, p.id ≠ id) → heartPrayer id s = (404, s)) ∧
    (∀ p ∈ s.prayers, p.id = id → (s.prayers.map Prayer.id).Nodup →
      ∃ l₁ l₂, s.prayers = l₁ ++ p :: l₂ ∧
        heartPrayer id s =
          (200, { s with prayers := l₁ ++ { p with hearts := p.hearts + 1 } :: l₂ })) := by
  constructor
  · intro h
    simp [heartPrayer, heartFirst_eq_none h]
  · intro p hmem hid hnd
    obtain ⟨l₁, l₂, hl, hh⟩ := heartFirst_eq_some hmem hid hnd
    exact ⟨l₁, l₂, hl, by simp [heartPrayer, hh]⟩

/-- Witness for C6: a two-prayer store; hearting id 9 is a 404 no-op and
hearting id 1 splits the store around the first prayer. -/
theorem heart_prayer_spec_witness :
    (heartPrayer 9
      { prayers := [⟨1, "A", "r1", 5, 0, 0, false⟩, ⟨2, "B", "r2", 7, 1, 1, true⟩],
        prayerComments := fun _ => [], nextPrayerId := 3, nextCommentId := 1 } =
      (404,
      { prayers := [⟨1, "A", "r1", 5, 0, 0, false⟩, ⟨2, "B", "r2", 7, 1, 1, true⟩],
        prayerComments := fun _ => [], nextPrayerId := 3, nextCommentId := 1 })) ∧
    (∃ l₁ l₂,
      [⟨1, "A", "r1", 5, 0, 0, false⟩, ⟨2, "B", "r2", 7, 1, 1, true⟩] =
        l₁ ++ (⟨1, "A", "r1", 5, 0, 0, false⟩ : Prayer) :: l₂ ∧
      heartPrayer 1
        { prayers := [⟨1, "A", "r1", 5, 0, 0, false⟩, ⟨2, "B", "r2", 7, 1, 1, true⟩],
          prayerComments := fun _ => [], nextPrayerId := 3, nextCommentId := 1 } =
        (200,
        { prayers := l₁ ++ (⟨1, "A", "r1", 6, 0, 0, false⟩ : Prayer) :: l₂,
          prayerComments := fun _ => [], nextPrayerId := 3, nextCommentId := 1 })) :=
  ⟨(heart_prayer_spec 9
      { prayers := [⟨1, "A", "r1", 5, 0, 0, false⟩, ⟨2, "B", "r2", 7, 1, 1, true⟩],
        prayerComments := fun _ => [], nextPrayerId := 3, nextCommentId := 1 }).1
      (by decide),
   (heart_prayer_spec 1
      { prayers := [⟨1, "A", "r1", 5, 0, 0, false⟩, ⟨2, "B", "r2", 7, 1, 1, true⟩],
        prayerComments := fun _ => [], nextPrayerId := 3, nextCommentId := 1 }).2
      ⟨1, "A", "r1", 5, 0, 0, false⟩ (List.mem_cons_self _ _) rfl (by decide)⟩

/-- removeFirstPrayer finds nothing when no prayer carries the id. -/
theorem removeFirstPrayer_eq_none {id : Nat} {l : List Prayer}
    (h : ∀ p ∈ l, p.id ≠ id) : removeFirstPrayer id l = none := by
  induction l with
  | nil => rfl
  | cons q ls ih =>
    simp only [removeFirstPrayer]
    rw [if_neg (h q (List.mem_cons_self q ls))]
    rw [ih fun p hp => h p (List.mem_cons_of_mem q hp)]
    rfl

/-- removeFirstPrayer at a present id (ids unique): the store splits
around the carrier and exactly it is dropped. -/
theorem removeFirstPrayer_eq_some {id : Nat} {l : List Prayer} {p : Prayer}
    (hmem : p ∈ l) (hid : p.id = id) (hnd : (l.map Prayer.id).Nodup) :
    ∃ l₁ l₂, l = l₁ ++ p :: l₂ ∧ removeFirstPrayer id l = some (l₁ ++ l₂) := by
  induction l with
  | nil => cases hmem
  | cons q ls ih =>
    rw [List.map_cons, List.nodup_cons] at hnd
    by_cases hq : q.id = id
    · have hpq : p = q := by
        rcases List.mem_cons.mp hmem with h | h
        · exact h
        · exfalso
          apply hnd.1
          rw [hq, ← hid]
          exact List.mem_map_of_mem Prayer.id h
      subst hpq
      exact ⟨[], ls, by simp, by simp [removeFirstPrayer, hid]⟩
    · have hpls : p ∈ ls := by
        rcases List.mem_cons.mp hmem with h | h
        · exact absurd (h ▸ hid) hq
        · exact h
      obtain ⟨l₁, l₂, hl, hh⟩ := ih hpls hnd.2
      exact ⟨q :: l₁, l₂, by simp [hl], by simp [removeFirstPrayer, hq, hh]⟩

/-- C7: deleting an unknown prayer id answers 404 and changes nothing;
deleting a present id (ids being pairwise distinct, and every stored
comment filed under its own prayers key, as the comment handler
guarantees) removes exactly that prayer, removes every comment whose
prayer_id equals the id, keeps every comment of every other prayer, and
leaves the counters alone. -/
theorem delete_prayer_spec (id : Nat) (s : PrayerStore)
    (hwf : ∀ k, ∀ c ∈ s.prayerComments k, c.prayer_id = k) :
    ((∀ p ∈ s.prayers, p.id ≠ id) → deletePrayer id s = (404, s)) ∧
    (∀ p ∈ s.prayers, p.id = id → (s.prayers.map Prayer.id).Nodup →
      ∃ l₁ l₂, s.prayers = l₁ ++ p :: l₂ ∧
        (deletePrayer id s).1 = 200 ∧
        (deletePrayer id s).2.prayers = l₁ ++ l₂ ∧
        (∀ k, ∀ c ∈ (deletePrayer id s).2.prayerComments k, c.prayer_id ≠ id) ∧
        (∀ k c, c.prayer_id ≠ id →
          (c ∈ (deletePrayer id s).2.prayerComments k ↔ c ∈ s.prayerComments k)) ∧
        (deletePrayer id s).2.nextPrayerId = s.nextPrayerId ∧
        (deletePrayer id s).2.nextCommentId = s.nextCommentId) := by
  constructor
  · intro h
    simp [deletePrayer, removeFirstPrayer_eq_none h]
  · intro p hmem hid hnd
    obtain ⟨l₁, l₂, hl, hh⟩ := removeFirstPrayer_eq_some hmem hid hnd
    have hstore : deletePrayer id s =
        (200, { s with prayers := l₁ ++ l₂,
                       prayerComments :=
                         fun k => if k = id then [] else s.prayerComments k }) := by
      simp [deletePrayer, hh]
    refine ⟨l₁, l₂, hl, ?_, ?_, ?_, ?_, ?_, ?_⟩ <;> rw [hstore]
    · intro k c hc
      dsimp only at hc
      by_cases hk : k = id
      · rw [if_pos hk] at hc
        cases hc
      · rw [if_neg hk] at hc
        rw [hwf k c hc]
        exact hk
    · intro k c hcid
      dsimp only
      by_cases hk : k = id
      · subst hk
        rw [if_pos rfl]
        constructor
        · intro h
          cases h
        · intro h
          exact absurd (hwf k c h) hcid
      · rw [if_neg hk]

/-- Witness for C7: deleting prayer 1 from a two-prayer store carrying a
comment under each key removes the prayer and exactly its comment. -/
theorem delete_prayer_spec_witness :
    ∃ l₁ l₂,
      [⟨1, "A", "r1", 5, 0, 0, false⟩, ⟨2, "B", "r2", 7, 1, 1, true⟩] =
        l₁ ++ (⟨1, "A", "r1", 5, 0, 0, false⟩ : Prayer) :: l₂ ∧
      (deletePrayer 1
        { prayers := [⟨1, "A", "r1", 5, 0, 0, false⟩, ⟨2, "B", "r2", 7, 1, 1, true⟩],
          prayerComments := fun k => if k = 1 then [⟨1, "X", "c1", 0, false, 1⟩]
            else if k = 2 then [⟨2, "Y", "c2", 0, false, 2⟩] else [],
          nextPrayerId := 3, nextCommentId := 3 }).1 = 200 ∧
      (deletePrayer 1
        { prayers := [⟨1, "A", "r1", 5, 0, 0, false⟩, ⟨2, "B", "r2", 7, 1, 1, true⟩],
          prayerComments := fun k => if k = 1 then [⟨1, "X", "c1", 0, false, 1⟩]
            else if k = 2 then [⟨2, "Y", "c2", 0, false, 2⟩] else [],
          nextPrayerId := 3, nextCommentId := 3 }).2.prayers = l₁ ++ l₂ ∧
      (∀ k, ∀ c ∈ (deletePrayer 1
        { prayers := [⟨1, "A", "r1", 5, 0, 0, false⟩, ⟨2, "B", "r2", 7, 1, 1, true⟩],
          prayerComments := fun k => if k = 1 then [⟨1, "X", "c1", 0, false, 1⟩]
            else if k = 2 then [⟨2, "Y", "c2", 0, false, 2⟩] else [],
          nextPrayerId := 3, nextCommentId := 3 }).2.prayerComments k,
        c.prayer_id ≠ 1) ∧
      (∀ k c, c.prayer_id ≠ 1 →
        (c ∈ (deletePrayer 1
          { prayers := [⟨1, "A", "r1", 5, 0, 0, false⟩, ⟨2, "B", "r2", 7, 1, 1, true⟩],
            prayerComments := fun k => if k = 1 then [⟨1, "X", "c1", 0, false, 1⟩]
              else if k = 2 then [⟨2, "Y", "c2", 0, false, 2⟩] else [],
            nextPrayerId := 3, nextCommentId := 3 }).2.prayerComments k ↔
         c ∈ (fun k => if k = 1 then [(⟨1, "X", "c1", 0, false, 1⟩ : PrayerComment)]
              else if k = 2 then [⟨2, "Y", "c2", 0, false, 2⟩] else []) k)) ∧
      (deletePrayer 1
        { prayers := [⟨1, "A", "r1", 5, 0, 0, false⟩, ⟨2, "B", "r2", 7, 1, 1, true⟩],
          prayerComments := fun k => if k = 1 then [⟨1, "X", "c1", 0, false, 1⟩]
            else if k = 2 then [⟨2, "Y", "c2", 0, false, 2⟩] else [],
          nextPrayerId := 3, nextCommentId := 3 }).2.nextPrayerId = 3 := by
  obtain ⟨l₁, l₂, h1, h2, h3, h4, h5, h6, h7⟩ :=
    (delete_prayer_spec 1
      { prayers := [⟨1, "A", "r1", 5, 0, 0, false⟩, ⟨2, "B", "r2", 7, 1, 1, true⟩],
        prayerComments := fun k => if k = 1 then [⟨1, "X", "c1", 0, false, 1⟩]
          else if k = 2 then [⟨2, "Y", "c2", 0, false, 2⟩] else [],
        nextPrayerId := 3, nextCommentId := 3 }
      (by
        intro k c hc
        by_cases hk1 : k = 1
        · subst hk1
          simp at hc
          rw [hc]
        · by_cases hk2 : k = 2
          · subst hk2
            simp [hk1] at hc
            rw [hc]
          · simp [hk1, hk2] at hc)).2
      ⟨1, "A", "r1", 5, 0, 0, false⟩ (List.mem_cons_self _ _) rfl (by decide)
  exact ⟨l₁, l₂, h1, h2, h3, h4, h5, h6⟩

/-- Inserting with insertByKeyDesc permutes: the result is the element
consed on the old list, up to order. -/
theorem insertByKeyDesc_perm {α : Type} (key : α → Nat) (x : α) (l : List α) :
    (insertByKeyDesc key x l).Perm (x :: l) := by
  induction l with
  | nil => exact List.Perm.refl _
  | cons y ys ih =>
    simp only [insertByKeyDesc]
    by_cases h : key x ≤ key y
    · rw [if_pos h]
      exact (ih.cons y).trans (List.Perm.swap x y ys)
    · rw [if_neg h]

/-- Membership after an insertion step. -/
theorem mem_insertByKeyDesc {α : Type} {key : α → Nat} {x z : α} {l : List α}
    (h : z ∈ insertByKeyDesc key x l) : z = x ∨ z ∈ l :=
  List.mem_cons.mp ((insertByKeyDesc_perm key x l).mem_iff.mp h)

/-- An insertion step preserves descending sortedness. -/
theorem insertByKeyDesc_sorted {α : Type} {key : α → Nat} (x : α) {l : List α}
    (h : l.Sorted (fun a b => key b ≤ key a)) :
    (insertByKeyDesc key x l).Sorted (fun a b => key b ≤ key a) := by
  induction l with
  | nil => simp [insertByKeyDesc]
  | cons y ys ih =>
    rw [List.sorted_cons] at h
    simp only [insertByKeyDesc]
    by_cases hxy : key x ≤ key y
    · rw [if_pos hxy, List.sorted_cons]
      refine ⟨?_, ih h.2⟩
      intro z hz
      rcases mem_insertByKeyDesc hz with rfl | hz
      · exact hxy
      · exact h.1 z hz
    · rw [if_neg hxy, List.sorted_cons]
      refine ⟨?_, List.sorted_cons.mpr h⟩
      intro z hz
      rcases List.mem_cons.mp hz with rfl | hz
      · omega
      · exact le_trans (h.1 z hz) (by omega)

/-- Stability of one insertion step on a sorted accumulator: the
elements at any fixed key value keep their order, the new element
joining at the back of its key class. -/
theorem insertByKeyDesc_filter {α : Type} {key : α → Nat} (x : α) {l : List α}
    (h : l.Sorted (fun a b => key b ≤ key a)) (v : Nat) :
    (insertByKeyDesc key x l).filter (fun z => key z == v) =
      if key x = v then l.filter (fun z => key z == v) ++ [x]
      else l.filter (fun z => key z == v) := by
  induction l with
  | nil =>
    by_cases hv : key x = v
    · simp [insertByKeyDesc, hv]
    · simp [insertByKeyDesc, hv]
  | cons y ys ih =>
    rw [List.sorted_cons] at h
    simp only [insertByKeyDesc]
    by_cases hxy : key x ≤ key y
    · rw [if_pos hxy]
      by_cases hv : key x = v <;> by_cases hyv : key y = v <;>
        simp [List.filter_cons, ih h.2, hv, hyv]
    · rw [if_neg hxy]
      by_cases hv : key x = v
      · have hyv : ¬ key y = v := by omega
        have hempty : ys.filter (fun z => key z == v) = [] := by
          rw [List.filter_eq_nil_iff]
          intro z hz
          have := h.1 z hz
          simp only [beq_iff_eq]
          omega
        simp [List.filter_cons, hv, hyv, hempty]
      · simp [List.filter_cons, hv]

/-- The insertion fold permutes: the sink holds the source elements
followed by the accumulator, up to order. -/
theorem sortFold_perm {α : Type} (key : α → Nat) (l acc : List α) :
    (l.foldl (fun a x => insertByKeyDesc key x a) acc).Perm (l ++ acc) := by
  induction l generalizing acc with
  | nil => simp
  | cons x xs ih =>
    simp only [List.foldl_cons]
    refine (ih (insertByKeyDesc key x acc)).trans ?_
    have h1 : (xs ++ insertByKeyDesc key x acc).Perm (xs ++ (x :: acc)) :=
      List.Perm.append_left xs (insertByKeyDesc_perm key x acc)
    have h2 : (xs ++ (x :: acc)).Perm (x :: (xs ++ acc)) := List.perm_middle
    exact h1.trans h2

/-- The insertion fold sorts descending. -/
theorem sortFold_sorted {α : Type} (key : α → Nat) (l : List α) {acc : List α}
    (h : acc.Sorted (fun a b => key b ≤ key a)) :
    (l.foldl (fun a x => insertByKeyDesc key x a) acc).Sorted
      (fun a b => key b ≤ key a) := by
  induction l generalizing acc with
  | nil => simpa using h
  | cons x xs ih =>
    simp only [List.foldl_cons]
    exact ih (insertByKeyDesc_sorted x h)

/-- The insertion fold is stable: at any fixed key value the output
lists the accumulator elements first, then the source elements, both in
their original order. -/
theorem sortFold_filter {α : Type} (key : α → Nat) (l : List α) {acc : List α}
    (h : acc.Sorted (fun a b => key b ≤ key a)) (v : Nat) :
    (l.foldl (fun a x => insertByKeyDesc key x a) acc).filter (fun z => key z == v) =
      acc.filter (fun z => key z == v) ++ l.filter (fun z => key z == v) := by
  induction l generalizing acc with
  | nil => simp
  | cons x xs ih =>
    simp only [List.foldl_cons]
    rw [ih (insertByKeyDesc_sorted x h), insertByKeyDesc_filter x h v]
    by_cases hv : key x = v
    · rw [if_pos hv, List.filter_cons]
      simp [hv]
    · rw [if_neg hv, List.filter_cons]
      simp [hv]

/-- C8 amended: both listings return exactly the stored entries, ordered
by created_at descending; equal timestamps keep insertion order (the
sort is stable: filtering the listing at any fixed timestamp yields the
insertion-order subsequence unchanged); inserting A then B therefore
lists [B, A] when B carries a strictly larger created_at, but [A, B]
when the two timestamps coincide. -/
theorem listing_sorted_desc_stable (s : PrayerStore) (id : Nat) :
    (listPrayers s).Perm s.prayers ∧
    (listPrayers s).Sorted (fun a b : Prayer => b.created_at ≤ a.created_at) ∧
    (∀ v, (listPrayers s).filter (fun p => p.created_at == v) =
      s.prayers.filter (fun p => p.created_at == v)) ∧
    (listPrayerComments id s).Perm (s.prayerComments id) ∧
    (listPrayerComments id s).Sorted
      (fun a b : PrayerComment => b.created_at ≤ a.created_at) ∧
    (∀ v, (listPrayerComments id s).filter (fun c => c.created_at == v) =
      (s.prayerComments id).filter (fun c => c.created_at == v)) ∧
    (∀ a b : Prayer, a.created_at < b.created_at →
      sortByKeyDesc (fun p => p.created_at) [a, b] = [b, a]) ∧
    (∀ a b : Prayer, a.created_at = b.created_at →
      sortByKeyDesc (fun p => p.created_at) [a, b] = [a, b]) := by
  refine ⟨?_, ?_, ?_, ?_, ?_, ?_, ?_, ?_⟩
  · simpa using sortFold_perm (fun p : Prayer => p.created_at) s.prayers []
  · exact sortFold_sorted _ s.prayers (by simp)
  · intro v
    simpa using sortFold_filter (fun p : Prayer => p.created_at) s.prayers (by simp) v
  · simpa using sortFold_perm (fun c : PrayerComment => c.created_at) (s.prayerComments id) []
  · exact sortFold_sorted _ (s.prayerComments id) (by simp)
  · intro v
    simpa using
      sortFold_filter (fun c : PrayerComment => c.created_at) (s.prayerComments id) (by simp) v
  · intro a b hab
    simp only [sortByKeyDesc, List.foldl_cons, List.foldl_nil, insertByKeyDesc]
    rw [if_neg (by omega)]
  · intro a b hab
    simp only [sortByKeyDesc, List.foldl_cons, List.foldl_nil, insertByKeyDesc]
    rw [if_pos (by omega)]

/-- Witness for C8 amended: a strictly newer second insert is listed
first. -/
theorem listing_sorted_desc_stable_witness :
    sortByKeyDesc (fun p : Prayer => p.created_at)
        [⟨1, "A", "r", 0, 0, 5, false⟩, ⟨2, "B", "r", 0, 0, 9, false⟩] =
      [⟨2, "B", "r", 0, 0, 9, false⟩, ⟨1, "A", "r", 0, 0, 5, false⟩] :=
  (listing_sorted_desc_stable emptyPrayerStore 0).2.2.2.2.2.2.1
    ⟨1, "A", "r", 0, 0, 5, false⟩ ⟨2, "B", "r", 0, 0, 9, false⟩ (by decide)

/-- C8 counterexample: creating prayer A then prayer B within the same
millisecond (equal created_at) and then listing yields [A, B], the
insertion order, not the claimed [B, A]. -/
theorem same_ms_listing_in_insertion_order :
    listPrayers (createPrayer ⟨some "prayB", some "B", false⟩ 100
        (createPrayer ⟨some "prayA", some "A", false⟩ 100 emptyPrayerStore).2).2 =
      [⟨3, "A", "prayA", 0, 100, 100, false⟩, ⟨4, "B", "prayB", 0, 100, 100, false⟩] ∧
    [(⟨3, "A", "prayA", 0, 100, 100, false⟩ : Prayer),
        ⟨4, "B", "prayB", 0, 100, 100, false⟩] ≠
      [⟨4, "B", "prayB", 0, 100, 100, false⟩, ⟨3, "A", "prayA", 0, 100, 100, false⟩] := by
  constructor
  · decide
  · decide

/-- C5: POST /api/testimonials answers 403 when the window is closed; in
an open window a blank testimony is a 400 with error Testimony content
required, an overlong testimony is a 400, and a non-anonymous submission
without a usable name is a 400; every failure leaves the store
unchanged; and exactly when the window is open and every validation
passes, one pending testimonial is appended and answered 201. -/
theorem post_testimonial_spec (t : SimpleDate) (ts : Nat)
    (body : TestimonialBody) (s : TestimonialStore) :
    (isTestimonialSubmissionOpen (t.day % 7) t.hour = false →
      (postTestimonial t ts body s).1.status = 403 ∧
      (postTestimonial t ts body s).2 = s) ∧
    (isTestimonialSubmissionOpen (t.day % 7) t.hour = true →
      blankStr body.testimony = true →
      (postTestimonial t ts body s).1.status = 400 ∧
      (postTestimonial t ts body s).1.error = some "Testimony content required" ∧
      (postTestimonial t ts body s).2 = s) ∧
    (isTestimonialSubmissionOpen (t.day % 7) t.hour = true →
      blankStr body.testimony = false →
      2000 < (body.testimony.getD "").length →
      (postTestimonial t ts body s).1.status = 400 ∧
      (postTestimonial t ts body s).2 = s) ∧
    (isTestimonialSubmissionOpen (t.day % 7) t.hour = true →
      blankStr body.testimony = false →
      (body.testimony.getD "").length ≤ 2000 →
      body.anonymous = false → blankStr body.name = true →
      (postTestimonial t ts body s).1.status = 400 ∧
      (postTestimonial t ts body s).2 = s) ∧
    (isTestimonialSubmissionOpen (t.day % 7) t.hour = true →
      blankStr body.testimony = false →
      (body.testimony.getD "").length ≤ 2000 →
      (body.anonymous = true ∨ blankStr body.name = false) →
      (postTestimonial t ts body s).1.status = 201 ∧
      (postTestimonial t ts body s).1.testimonial = some
        { id := s.nextTestimonialId,
          name := if body.anonymous then "Anonymous" else jsTrim (body.name.getD ""),
          testimony := jsTrim (body.testimony.getD ""),
          anonymous := body.anonymous, approved := false,
          created_at := ts, approved_at := none } ∧
      (postTestimonial t ts body s).2 =
        { testimonials := s.testimonials ++
            [{ id := s.nextTestimonialId,
               name := if body.anonymous then "Anonymous" else jsTrim (body.name.getD ""),
               testimony := jsTrim (body.testimony.getD ""),
               anonymous := body.anonymous, approved := false,
               created_at := ts, approved_at := none }],
          nextTestimonialId := s.nextTestimonialId + 1 }) := by
  refine ⟨?_, ?_, ?_, ?_, ?_⟩
  · intro hclosed
    simp [postTestimonial, hclosed]
  · intro hopen hblank
    simp [postTestimonial, hopen, hblank]
  · intro hopen hblank hlen
    simp [postTestimonial, hopen, hblank, hlen]
  · intro hopen hblank hlen hanon hname
    have hnolen : ¬ 2000 < (body.testimony.getD "").length := Nat.not_lt.mpr hlen
    simp [postTestimonial, hopen, hblank, hnolen, hanon, hname]
  · intro hopen hblank hlen hvalid
    have hnolen : ¬ 2000 < (body.testimony.getD "").length := Nat.not_lt.mpr hlen
    have hcond : ¬ (body.anonymous = false ∧ blankStr body.name = true) := by
      intro hc
      rcases hvalid with h | h
      · rw [h] at hc
        exact Bool.noConfusion hc.1
      · rw [hc.2] at h
        exact Bool.noConfusion h
    simp [postTestimonial, hopen, hblank, hnolen, hcond]

/-- Witness for C5: a successful Wednesday submission is a 201. -/
theorem post_testimonial_spec_witness :
    (postTestimonial ⟨3, 0, 0, 0, 0⟩ 7 ⟨some "God is good", some "Sam", false⟩
        initialTestimonialStore).1.status = 201 :=
  ((post_testimonial_spec ⟨3, 0, 0, 0, 0⟩ 7 ⟨some "God is good", some "Sam", false⟩
      initialTestimonialStore).2.2.2.2 (by decide) (by decide) (by decide)
      (Or.inr (by decide))).1

/-- Two store entries carrying the same id are the same entry when the
stored ids are pairwise distinct. -/
theorem nodup_ids_eq {l : List Testimonial}
    (hnd : (l.map Testimonial.id).Nodup) {u w : Testimonial}
    (hu : u ∈ l) (hw : w ∈ l) (hid : w.id = u.id) : w = u := by
  induction l with
  | nil => cases hu
  | cons x rest ih =>
    rw [List.map_cons, List.nodup_cons] at hnd
    rcases List.mem_cons.mp hu with rfl | hu2
    · rcases List.mem_cons.mp hw with rfl | hw2
      · rfl
      · exfalso
        apply hnd.1
        rw [← hid]
        exact List.mem_map_of_mem Testimonial.id hw2
    · rcases List.mem_cons.mp hw with rfl | hw2
      · exfalso
        apply hnd.1
        rw [hid]
        exact List.mem_map_of_mem Testimonial.id hu2
      · exact ih hnd.2 hu2 hw2

/-- approveFirst on a store with no carrier of the id. -/
theorem approveFirst_notFound {id ts : Nat} {l : List Testimonial}
    (h : ∀ u ∈ l, u.id ≠ id) : approveFirst id ts l = .error .notFound := by
  induction l with
  | nil => rfl
  | cons u rest ih =>
    simp only [approveFirst]
    rw [if_neg (h u (List.mem_cons_self u rest))]
    rw [ih fun w hw => h w (List.mem_cons_of_mem u hw)]

/-- approveFirst when the carrier of the id (ids unique) is already
approved: the attempt is refused. -/
theorem approveFirst_already {id ts : Nat} {l : List Testimonial} {u : Testimonial}
    (hmem : u ∈ l) (hid : u.id = id) (happ : u.approved = true)
    (hnd : (l.map Testimonial.id).Nodup) :
    approveFirst id ts l = .error .alreadyApproved := by
  induction l with
  | nil => cases hmem
  | cons w rest ih =>
    rw [List.map_cons, List.nodup_cons] at hnd
    simp only [approveFirst]
    by_cases hw : w.id = id
    · have huw : u = w := by
        rcases List.mem_cons.mp hmem with h | h
        · exact h
        · exfalso
          apply hnd.1
          rw [hw, ← hid]
          exact List.mem_map_of_mem Testimonial.id h
      rw [if_pos hw, if_pos (huw ▸ happ)]
    · have hurest : u ∈ rest := by
        rcases List.mem_cons.mp hmem with h | h
        · exact absurd (h ▸ hid) hw
        · exact h
      rw [if_neg hw, ih hurest hnd.2]

/-- approveFirst succeeding: the store splits at the first carrier of
the id, which was pending and receives the approval writes. -/
theorem approveFirst_ok {id ts : Nat} {l l2 : List Testimonial}
    (h : approveFirst id ts l = .ok l2) :
    ∃ l₁ u l₂, l = l₁ ++ u :: l₂ ∧ u.id = id ∧ u.approved = false ∧
      (∀ w ∈ l₁, w.id ≠ id) ∧
      l2 = l₁ ++ { u with approved := true, approved_at := some ts } :: l₂ := by
  induction l generalizing l2 with
  | nil => cases h
  | cons w rest ih =>
    simp only [approveFirst] at h
    by_cases hw : w.id = id
    · rw [if_pos hw] at h
      by_cases happ : w.approved = true
      · rw [if_pos happ] at h
        cases h
      · rw [if_neg happ] at h
        cases h
        refine ⟨[], w, rest, by simp, hw, by simpa using happ, by simp, rfl⟩
    · rw [if_neg hw] at h
      cases hrec : approveFirst id ts rest with
      | ok rest2 =>
        rw [hrec] at h
        cases h
        obtain ⟨l₁, u, l₂, hsplit, hid, hpend, hnone, hres⟩ := ih hrec
        refine ⟨w :: l₁, u, l₂, by simp [hsplit], hid, hpend, ?_, by simp [hres]⟩
        intro z hz
        rcases List.mem_cons.mp hz with rfl | hz2
        · exact hw
        · exact hnone z hz2
      | error e =>
        rw [hrec] at h
        cases h

/-- removeFirstTestimonial succeeding: the store splits at the first
carrier of the id, which is dropped. -/
theorem removeFirstTestimonial_some {id : Nat} {l l2 : List Testimonial}
    (h : removeFirstTestimonial id l = some l2) :
    ∃ l₁ u l₂, l = l₁ ++ u :: l₂ ∧ l2 = l₁ ++ l₂ := by
  induction l generalizing l2 with
  | nil => cases h
  | cons w rest ih =>
    simp only [removeFirstTestimonial] at h
    by_cases hw : w.id = id
    · rw [if_pos hw] at h
      cases h
      exact ⟨[], w, rest, by simp, rfl⟩
    · rw [if_neg hw] at h
      cases hrec : removeFirstTestimonial id rest with
      | some rest2 =>
        rw [hrec] at h
        cases h
        obtain ⟨l₁, u, l₂, hsplit, hres⟩ := ih hrec
        exact ⟨w :: l₁, u, l₂, by simp [hsplit], by simp [hres]⟩
      | none =>
        rw [hrec] at h
        cases h

/-- The store after a create: untouched on every failure, the pending
entry with the counter id appended on success. -/
theorem postTestimonial_store_shape (t : SimpleDate) (ts : Nat)
    (body : TestimonialBody) (s : TestimonialStore) :
    (postTestimonial t ts body s).2 = s ∨
    ((postTestimonial t ts body s).2.testimonials =
      s.testimonials ++
        [{ id := s.nextTestimonialId,
           name := if body.anonymous then "Anonymous" else jsTrim (body.name.getD ""),
           testimony := jsTrim (body.testimony.getD ""),
           anonymous := body.anonymous, approved := false,
           created_at := ts, approved_at := none }] ∧
      (postTestimonial t ts body s).2.nextTestimonialId = s.nextTestimonialId + 1) := by
  simp only [postTestimonial]
  split
  · exact Or.inl rfl
  · split
    · exact Or.inl rfl
    · split
      · exact Or.inl rfl
      · split
        · exact Or.inl rfl
        · exact Or.inr ⟨rfl, rfl⟩

/-- The store is untouched when an approval attempt fails. -/
theorem approveTestimonial_error_store {id ts : Nat} {s : TestimonialStore}
    {e : ApproveOutcome} (h : approveFirst id ts s.testimonials = .error e) :
    (approveTestimonial id ts s).2 = s := by
  cases e <;> simp [approveTestimonial, h]

/-- The stored list after a successful approval. -/
theorem approveTestimonial_ok_store {id ts : Nat} {s : TestimonialStore}
    {l2 : List Testimonial} (h : approveFirst id ts s.testimonials = .ok l2) :
    (approveTestimonial id ts s).2.testimonials = l2 := by
  simp [approveTestimonial, h]

/-- The store is untouched when a delete misses. -/
theorem deleteTestimonial_none_store {id : Nat} {s : TestimonialStore}
    (h : removeFirstTestimonial id s.testimonials = none) :
    (deleteTestimonial id s).2 = s := by
  simp [deleteTestimonial, h]

/-- The stored list after a successful delete. -/
theorem deleteTestimonial_some_store {id : Nat} {s : TestimonialStore}
    {l2 : List Testimonial} (h : removeFirstTestimonial id s.testimonials = some l2) :
    (deleteTestimonial id s).2.testimonials = l2 := by
  simp [deleteTestimonial, h]

/-- Every operation preserves the store invariant. -/
theorem testimonialInv_step (a : TestimonialAction) {s : TestimonialStore}
    (h : TestimonialInv s) : TestimonialInv (applyTestimonialAction a s).2 := by
  obtain ⟨hts, hnd, hlt⟩ := h
  cases a with
  | create t ts body =>
    rcases postTestimonial_store_shape t ts body s with heq | ⟨hlist, hnext⟩
    · simp only [applyTestimonialAction]
      rw [heq]
      exact ⟨hts, hnd, hlt⟩
    · simp only [applyTestimonialAction]
      refine ⟨?_, ?_, ?_⟩
      · intro u hu
        rw [hlist] at hu
        rcases List.mem_append.mp hu with hu | hu
        · exact hts u hu
        · rw [List.mem_singleton.mp hu]
          rfl
      · rw [hlist, List.map_append]
        refine List.Nodup.append hnd (by simp) ?_
        intro x hx hx2
        rw [List.map_singleton, List.mem_singleton] at hx2
        dsimp only at hx2
        obtain ⟨u, hu, hxu⟩ := List.mem_map.mp hx
        have := hlt u hu
        omega
      · intro u hu
        rw [hlist] at hu
        rw [hnext]
        rcases List.mem_append.mp hu with hu | hu
        · have := hlt u hu
          omega
        · rw [List.mem_singleton.mp hu]
          dsimp only
          omega
  | approve id ts =>
    cases hrec : approveFirst id ts s.testimonials with
    | error e =>
      have heq := approveTestimonial_error_store hrec
      simp only [applyTestimonialAction]
      rw [heq]
      exact ⟨hts, hnd, hlt⟩
    | ok l2 =>
      have hlist := approveTestimonial_ok_store hrec
      have hnext : (approveTestimonial id ts s).2.nextTestimonialId =
          s.nextTestimonialId := by
        simp [approveTestimonial, hrec]
      obtain ⟨l₁, u, l₂, hsplit, hid, hpend, hnone, hres⟩ := approveFirst_ok hrec
      simp only [applyTestimonialAction]
      rw [hsplit] at hts hnd hlt
      refine ⟨?_, ?_, ?_⟩
      · intro w hw
        rw [hlist, hres] at hw
        rcases List.mem_append.mp hw with hw | hw
        · exact hts w (List.mem_append.mpr (Or.inl hw))
        · rcases List.mem_cons.mp hw with rfl | hw2
          · rfl
          · exact hts w (List.mem_append.mpr (Or.inr (List.mem_cons_of_mem u hw2)))
      · rw [hlist, hres]
        have hmap : List.map Testimonial.id
            (l₁ ++ { u with approved := true, approved_at := some ts } :: l₂) =
            List.map Testimonial.id (l₁ ++ u :: l₂) := by
          simp
        rw [hmap]
        exact hnd
      · intro w hw
        rw [hlist, hres] at hw
        rw [hnext]
        rcases List.mem_append.mp hw with hw | hw
        · exact hlt w (List.mem_append.mpr (Or.inl hw))
        · rcases List.mem_cons.mp hw with rfl | hw2
          · exact hlt u (List.mem_append.mpr (Or.inr (List.mem_cons_self u l₂)))
          · exact hlt w (List.mem_append.mpr (Or.inr (List.mem_cons_of_mem u hw2)))
  | remove id =>
    cases hrec : removeFirstTestimonial id s.testimonials with
    | none =>
      have heq := deleteTestimonial_none_store hrec
      simp only [applyTestimonialAction]
      rw [heq]
      exact ⟨hts, hnd, hlt⟩
    | some l2 =>
      have hlist := deleteTestimonial_some_store hrec
      have hnext : (deleteTestimonial id s).2.nextTestimonialId =
          s.nextTestimonialId := by
        simp [deleteTestimonial, hrec]
      obtain ⟨l₁, u, l₂, hsplit, hres⟩ := removeFirstTestimonial_some hrec
      simp only [applyTestimonialAction]
      rw [hsplit] at hts hnd hlt
      refine ⟨?_, ?_, ?_⟩
      · intro w hw
        rw [hlist, hres] at hw
        rcases List.mem_append.mp hw with hw | hw
        · exact hts w (List.mem_append.mpr (Or.inl hw))
        · exact hts w (List.mem_append.mpr (Or.inr (List.mem_cons_of_mem u hw)))
      · rw [hlist, hres]
        have hsub : (l₁ ++ l₂).Sublist (l₁ ++ u :: l₂) :=
          List.Sublist.append_left (List.sublist_cons_self u l₂) l₁
        exact hnd.sublist (hsub.map Testimonial.id)
      · intro w hw
        rw [hlist, hres] at hw
        rw [hnext]
        rcases List.mem_append.mp hw with hw | hw
        · exact hlt w (List.mem_append.mpr (Or.inl hw))
        · exact hlt w (List.mem_append.mpr (Or.inr (List.mem_cons_of_mem u hw)))

/-- Every reachable testimonial store satisfies the invariant. -/
theorem testimonialInv_reachable {s : TestimonialStore}
    (h : TestimonialReachable s) : TestimonialInv s := by
  induction h with
  | init => refine ⟨?_, ?_, ?_⟩ <;> decide
  | step a _ ih => exact testimonialInv_step a ih

/-- C4: in every reachable testimonial store the approval timestamp is
present exactly on approved entries; under any operation an approved
entry can neither lose its approval nor its approval timestamp; only the
approve operation ever turns an entry approved; and approving an
already-approved entry answers 400 AlreadyApproved and leaves the store,
hence its approved_at, unchanged. -/
theorem testimonial_approval_invariant (s : TestimonialStore)
    (hreach : TestimonialReachable s) :
    (∀ u ∈ s.testimonials, u.approved_at.isSome = u.approved) ∧
    (∀ a : TestimonialAction, ∀ u ∈ s.testimonials, u.approved = true →
      ∀ w ∈ (applyTestimonialAction a s).2.testimonials, w.id = u.id →
        w.approved = true ∧ w.approved_at = u.approved_at) ∧
    (∀ a : TestimonialAction, ∀ w ∈ (applyTestimonialAction a s).2.testimonials,
      w.approved = true →
        (∃ u ∈ s.testimonials, u.id = w.id ∧ u.approved = true) ∨
        ∃ id ts, a = TestimonialAction.approve id ts) ∧
    (∀ id ts, ∀ u ∈ s.testimonials, u.id = id → u.approved = true →
      approveTestimonial id ts s =
        ({ status := 400, error := some "Testimonial already approved",
           testimonial := none }, s)) := by
  obtain ⟨hts, hnd, hlt⟩ := testimonialInv_reachable hreach
  refine ⟨hts, ?_, ?_, ?_⟩
  · intro a u hu huapp w hw hwid
    cases a with
    | create t ts body =>
      rcases postTestimonial_store_shape t ts body s with heq | ⟨hlist, hnext⟩
      · simp only [applyTestimonialAction] at hw
        rw [heq] at hw
        rw [nodup_ids_eq hnd hu hw hwid]
        exact ⟨huapp, rfl⟩
      · simp only [applyTestimonialAction] at hw
        rw [hlist] at hw
        rcases List.mem_append.mp hw with hw | hw
        · rw [nodup_ids_eq hnd hu hw hwid]
          exact ⟨huapp, rfl⟩
        · exfalso
          have hw2 := List.mem_singleton.mp hw
          rw [hw2] at hwid
          dsimp only at hwid
          have := hlt u hu
          omega
    | approve id2 ts2 =>
      cases hrec : approveFirst id2 ts2 s.testimonials with
      | error e =>
        have heq := approveTestimonial_error_store hrec
        simp only [applyTestimonialAction] at hw
        rw [heq] at hw
        rw [nodup_ids_eq hnd hu hw hwid]
        exact ⟨huapp, rfl⟩
      | ok l2 =>
        have hlist := approveTestimonial_ok_store hrec
        obtain ⟨l₁, v, l₂, hsplit, hvid, hvpend, hnone, hres⟩ := approveFirst_ok hrec
        simp only [applyTestimonialAction] at hw
        rw [hlist, hres] at hw
        rcases List.mem_append.mp hw with hw | hw
        · have hmem : w ∈ s.testimonials := by
            rw [hsplit]
            exact List.mem_append.mpr (Or.inl hw)
          rw [nodup_ids_eq hnd hu hmem hwid]
          exact ⟨huapp, rfl⟩
        · rcases List.mem_cons.mp hw with rfl | hw2
          · exfalso
            have hvm : v ∈ s.testimonials := by
              rw [hsplit]
              exact List.mem_append.mpr (Or.inr (List.mem_cons_self v l₂))
            have hvu : v = u := by
              apply nodup_ids_eq hnd hu hvm
              simpa using hwid
            rw [hvu, huapp] at hvpend
            exact Bool.noConfusion hvpend
          · have hmem : w ∈ s.testimonials := by
              rw [hsplit]
              exact List.mem_append.mpr (Or.inr (List.mem_cons_of_mem v hw2))
            rw [nodup_ids_eq hnd hu hmem hwid]
            exact ⟨huapp, rfl⟩
    | remove id2 =>
      cases hrec : removeFirstTestimonial id2 s.testimonials with
      | none =>
        have heq := deleteTestimonial_none_store hrec
        simp only [applyTestimonialAction] at hw
        rw [heq] at hw
        rw [nodup_ids_eq hnd hu hw hwid]
        exact ⟨huapp, rfl⟩
      | some l2 =>
        have hlist := deleteTestimonial_some_store hrec
        obtain ⟨l₁, v, l₂, hsplit, hres⟩ := removeFirstTestimonial_some hrec
        simp only [applyTestimonialAction] at hw
        rw [hlist, hres] at hw
        have hmem : w ∈ s.testimonials := by
          rw [hsplit]
          rcases List.mem_append.mp hw with hw | hw
          · exact List.mem_append.mpr (Or.inl hw)
          · exact List.mem_append.mpr (Or.inr (List.mem_cons_of_mem v hw))
        rw [nodup_ids_eq hnd hu hmem hwid]
        exact ⟨huapp, rfl⟩
  · intro a w hw hwapp
    cases a with
    | create t ts body =>
      rcases postTestimonial_store_shape t ts body s with heq | ⟨hlist, hnext⟩
      · simp only [applyTestimonialAction] at hw
        rw [heq] at hw
        exact Or.inl ⟨w, hw, rfl, hwapp⟩
      · simp only [applyTestimonialAction] at hw
        rw [hlist] at hw
        rcases List.mem_append.mp hw with hw | hw
        · exact Or.inl ⟨w, hw, rfl, hwapp⟩
        · exfalso
          rw [List.mem_singleton.mp hw] at hwapp
          exact Bool.noConfusion hwapp
    | approve id2 ts2 =>
      exact Or.inr ⟨id2, ts2, rfl⟩
    | remove id2 =>
      cases hrec : removeFirstTestimonial id2 s.testimonials with
      | none =>
        have heq := deleteTestimonial_none_store hrec
        simp only [applyTestimonialAction] at hw
        rw [heq] at hw
        exact Or.inl ⟨w, hw, rfl, hwapp⟩
      | some l2 =>
        have hlist := deleteTestimonial_some_store hrec
        obtain ⟨l₁, v, l₂, hsplit, hres⟩ := removeFirstTestimonial_some hrec
        simp only [applyTestimonialAction] at hw
        rw [hlist, hres] at hw
        have hmem : w ∈ s.testimonials := by
          rw [hsplit]
          rcases List.mem_append.mp hw with hw | hw
          · exact List.mem_append.mpr (Or.inl hw)
          · exact List.mem_append.mpr (Or.inr (List.mem_cons_of_mem v hw))
        exact Or.inl ⟨w, hmem, rfl, hwapp⟩
  · intro id ts u hu huid huapp
    have h := @approveFirst_already id ts s.testimonials u hu huid huapp hnd
    simp [approveTestimonial, h]

/-- Witness for C4 at the seeded store: re-approving the already
approved testimonial 1 is a 400 no-op. -/
theorem testimonial_approval_invariant_witness :
    approveTestimonial 1 999 initialTestimonialStore =
      ({ status := 400, error := some "Testimonial already approved",
         testimonial := none }, initialTestimonialStore) :=
  (testimonial_approval_invariant initialTestimonialStore
      TestimonialReachable.init).2.2.2 1 999 seedTestimonial1
    (List.mem_cons_self _ _) rfl rfl
